import Mathlib

/-!
Shallow embedding of the BookTopia reading-challenge tracker (kkc repository).

Calendar dates are modelled as integer day numbers: the JS code normalizes
every `Date` with `setHours(0, 0, 0, 0)` and formats it as `YYYY-MM-DD`
before comparing, so a date-only value is one integer and one calendar day
of difference is `1`.  JS numbers on the validated ranges are modelled as
exact rationals (`ℚ`); `Math.round` rounds half toward positive infinity.
Stateful backend calls are modelled by passing the relevant store contents
(lists of rows) explicitly and returning `Except` for fallible operations.
-/

/-- A point in time: a calendar day plus a time-of-day component.
`setHours(0,0,0,0)` discards the time component, keeping the day. -/
structure Instant where
  day : Int
  secs : Nat
deriving DecidableEq

/-- Models `date.setHours(0, 0, 0, 0)` followed by date-only comparison:
only the calendar day survives. -/
def stripTime (t : Instant) : Int := t.day

/-- `isDateInRange(dateString, daysBack)` from the date utilities:
`today` and the checked date are normalized to midnight, `minDate` is
`today - daysBack` days, and the result is
`checkDate >= minDate && checkDate <= today`. -/
def isDateInRange (t : Instant) (daysBack : Int) (now : Instant) : Bool :=
  let today := stripTime now
  let checkDate := stripTime t
  let minDate := today - daysBack
  decide (minDate ≤ checkDate) && decide (checkDate ≤ today)

/-- A `reading_logs` row: synthetic id, owning user, calendar day,
pages read, and update timestamp. -/
structure LogEntry where
  id : Nat
  user_id : Nat
  log_date : Int
  pages_read : Rat
  updated_at : Int
deriving DecidableEq

/-- Helper to build a log entry with timestamp 0. -/
def mkLog (i u : Nat) (d : Int) (p : Rat) : LogEntry :=
  ⟨i, u, d, p, 0⟩

/-- JS `Math.round`: rounds half toward positive infinity. -/
def mathRound (q : Rat) : Int := ⌊q + 1 / 2⌋

/-- The statistics record returned by `calculateStats`. -/
structure Stats where
  totalPages : Rat
  daysLogged : Nat
  avgPages : Int
  currentStreak : Nat
  longestStreak : Nat
deriving DecidableEq

/-- Comparator `(a, b) => new Date(a.log_date) - new Date(b.log_date)`:
ascending by date (stable sort). -/
def dateAsc (a b : LogEntry) : Prop := a.log_date ≤ b.log_date

instance : DecidableRel dateAsc := fun a b =>
  inferInstanceAs (Decidable (a.log_date ≤ b.log_date))

instance : IsTotal LogEntry dateAsc :=
  ⟨fun a b => le_total a.log_date b.log_date⟩

instance : IsTrans LogEntry dateAsc :=
  ⟨fun _ _ _ h1 h2 => le_trans h1 h2⟩

/-- The dates of a list of log entries, in order. -/
def logDates (logs : List LogEntry) : List Int := logs.map (fun l => l.log_date)

/-- The `while (true)` walk of `calculateStreaks`: starting at day `d`,
count consecutive days present in `loggedDates`, stepping back one day at a
time, stopping at the first absent day.  The source loop is unbounded; here
`fuel` bounds the recursion, and `fuel = dates.dedup.length + 1` strictly
exceeds any achievable count (the counted days are distinct members of
`dates`), so the loop always exits through its `break`, never through fuel
exhaustion — proved in `currentStreakLoop_break` below. -/
def currentStreakLoop (dates : List Int) : Int → Nat → Nat
  | _, 0 => 0
  | d, Nat.succ fuel =>
      if d ∈ dates then currentStreakLoop dates (d - 1) fuel + 1 else 0

/-- The starting day of the current-streak walk: today if it has an entry,
otherwise yesterday (`if (!loggedDates.has(todayStr)) checkDate -= 1 day`). -/
def streakStart (dates : List Int) (today : Int) : Int :=
  if today ∈ dates then today else today - 1

/-- Current streak of `calculateStreaks`: the backward walk from
`streakStart`. -/
def currentStreakCalc (dates : List Int) (today : Int) : Nat :=
  currentStreakLoop dates (streakStart dates today) (dates.dedup.length + 1)

/-- The longest-streak `for` loop of `calculateStreaks`: state is
`(longestStreak, tempStreak, prevDate)`; a day difference of exactly 1
extends `tempStreak`, anything else folds `tempStreak` into the maximum and
resets to 1; the final answer is `max(longestStreak, tempStreak)`. -/
def longestLoop : List Int → Nat → Nat → Option Int → Nat
  | [], longest, temp, _ => max longest temp
  | c :: rest, longest, _, none => longestLoop rest longest 1 (some c)
  | c :: rest, longest, temp, some p =>
      if c - p = 1 then longestLoop rest longest (temp + 1) (some c)
      else longestLoop rest (max longest temp) 1 (some c)

/-- `calculateStreaks(logs)` from `js/reading-log.js` (identical logic in the
Appwrite variant): sorts the logs ascending by date, builds the set of
logged dates, then computes the backward walk from today and the
longest-run scan.  `today` is the ambient current date (`new Date()`). -/
def calculateStreaks (logs : List LogEntry) (today : Int) : Nat × Nat :=
  if logs.length = 0 then (0, 0)
  else
    let sortedLogs := List.insertionSort dateAsc logs
    let loggedDates := logDates sortedLogs
    (currentStreakCalc loggedDates today, longestLoop loggedDates 0 0 none)

/-- `calculateStats(logs)` from `js/reading-log.js`: total pages, days
logged, `Math.round` average, and the two streaks; the empty collection
short-circuits to all zeros before any division. -/
def calculateStats (logs : List LogEntry) (today : Int) : Stats :=
  if logs.length = 0 then ⟨0, 0, 0, 0, 0⟩
  else
    let totalPages := logs.foldl (fun s l => s + l.pages_read) 0
    let daysLogged := logs.length
    let avgPages := mathRound (totalPages / (daysLogged : Rat))
    let streaks := calculateStreaks logs today
    ⟨totalPages, daysLogged, avgPages, streaks.1, streaks.2⟩

/-- Modelled from the spec: the current streak in the spec's words — the
number of consecutive calendar days each having at least one entry, counted
backward from the walk's start (today, or yesterday when today has no
entry); equivalently the greatest `k` such that all of the `k` days
`start, start - 1, …, start - (k - 1)` carry an entry. -/
def specCurrentStreak (dates : List Int) (today : Int) : Nat :=
  Nat.findGreatest
    (fun k => ∀ i < k, streakStart dates today - (i : Int) ∈ dates)
    dates.dedup.length

/-- Modelled from the spec: scan consecutive pairs of the sorted distinct
dates; a gap of exactly 1 extends the running streak, any other gap resets
it to 1; track the maximum run length seen. -/
def scanPairs : List Int → Int → Nat → Nat → Nat
  | [], _, temp, best => max best temp
  | c :: rest, p, temp, best =>
      if c - p = 1 then scanPairs rest c (temp + 1) best
      else scanPairs rest c 1 (max best temp)

/-- Modelled from the spec: longest streak = sort all distinct log dates
ascending and scan consecutive pairs (`scanPairs`); a single entry yields 1. -/
def specLongestStreak (dates : List Int) : Nat :=
  match List.insertionSort (fun a b => a ≤ b) dates.dedup with
  | [] => 0
  | d :: rest => scanPairs rest d 1 0

/-- Outcome of the backend `insert` once the client-side checks passed:
success, a uniqueness-constraint violation (Postgres error code `23505`),
or some other backend failure. -/
inductive InsertOutcome where
  | ok : InsertOutcome
  | uniqueViolation : InsertOutcome
  | failure : String → InsertOutcome
deriving DecidableEq

/-- Pre-check duplicate message of `addReadingLog`. -/
def dupPreMsg : String := "You already have an entry for this date. Please edit it instead."

/-- Storage-layer duplicate message of `addReadingLog` (error code 23505). -/
def dupDbMsg : String := "You already have an entry for this date"

/-- Page-bounds message shared by `addReadingLog` and `updateReadingLog`. -/
def pagesMsg : String := "Pages must be between 1 and 1000"

/-- Date-window message of `addReadingLog`. -/
def dateMsg : String := "You can only log entries for today or the past 3 days"

/-- `getLogByDate(userId, logDate)`: first stored row matching both keys,
or none. -/
def getLogByDate (store : List LogEntry) (userId : Nat) (logDate : Int) :
    Option LogEntry :=
  store.find? (fun e => decide (e.user_id = userId ∧ e.log_date = logDate))

/-- `addReadingLog(userId, logDate, pagesRead)` from `js/reading-log.js`:
date-window check, page-bounds check (`pagesRead < 1 || pagesRead > 1000`),
duplicate pre-check via `getLogByDate`, then the backend insert whose
outcome is passed in (`23505` maps to `dupDbMsg`, other failures rethrow). -/
def addReadingLog (store : List LogEntry) (userId : Nat) (logDate : Int)
    (pagesRead : Rat) (today : Int) (newId : Nat) (outcome : InsertOutcome) :
    Except String LogEntry :=
  if isDateInRange ⟨logDate, 0⟩ 3 ⟨today, 0⟩ = false then .error dateMsg
  else if pagesRead < 1 ∨ pagesRead > 1000 then .error pagesMsg
  else if (getLogByDate store userId logDate).isSome then .error dupPreMsg
  else
    match outcome with
    | .ok => .ok ⟨newId, userId, logDate, pagesRead, today⟩
    | .uniqueViolation => .error dupDbMsg
    | .failure msg => .error msg

/-- `updateReadingLog(logId, pagesRead)` from `js/reading-log.js`: only the
page bounds are validated (no date-window re-validation); the row matching
`id` gets `pages_read` and `updated_at` replaced and is returned together
with the updated store; a missing row makes `.single()` fail. -/
def updateReadingLog (store : List LogEntry) (logId : Nat) (pagesRead : Rat)
    (now : Int) : Except String (List LogEntry × LogEntry) :=
  if pagesRead < 1 ∨ pagesRead > 1000 then .error pagesMsg
  else
    match store.find? (fun e => decide (e.id = logId)) with
    | none => .error "no rows returned"
    | some e =>
        .ok (store.map (fun x =>
              if x.id = logId then { x with pages_read := pagesRead, updated_at := now } else x),
            { e with pages_read := pagesRead, updated_at := now })

/-- Comparator for `getUserLogs`: `order('log_date', { ascending: false })`,
descending by date. -/
def dateDesc (a b : LogEntry) : Prop := b.log_date ≤ a.log_date

instance : DecidableRel dateDesc := fun a b =>
  inferInstanceAs (Decidable (b.log_date ≤ a.log_date))

instance : IsTotal LogEntry dateDesc :=
  ⟨fun a b => le_total b.log_date a.log_date⟩

instance : IsTrans LogEntry dateDesc :=
  ⟨fun _ _ _ h1 h2 => le_trans h2 h1⟩

/-- `getUserLogs(userId, limit = 50)`: the user's rows, ordered by
`log_date` descending, truncated to `limit`. -/
def getUserLogs (allLogs : List LogEntry) (userId : Nat) (limit : Nat) :
    List LogEntry :=
  (List.insertionSort dateDesc (allLogs.filter (fun l => decide (l.user_id = userId)))).take limit

/-- `refreshLogs` in `js/dashboard.js`: fetches `getUserLogs(currentUser.$id)`
with the default limit 50 and feeds the result to `calculateStats`. -/
def refreshLogsStats (allLogs : List LogEntry) (userId : Nat) (today : Int) :
    Stats :=
  calculateStats (getUserLogs allLogs userId 50) today

/-- A `profiles` row. -/
structure Profile where
  userId : Nat
  username : String
  avatar : String
deriving DecidableEq

/-- A row of the Supabase leaderboard query: `user_id`, `pages_read`, and
the inner-joined profile fields. -/
structure LBRow where
  user_id : Nat
  pages_read : Rat
  username : String
  avatar : String
deriving DecidableEq

/-- A `userTotals` value of `getLeaderboard`. -/
structure LBEntry where
  userId : Nat
  username : String
  avatarUrl : String
  totalPages : Rat
deriving DecidableEq

/-- A leaderboard entry after the final `map` adds `rank: index + 1`. -/
structure RankedEntry where
  userId : Nat
  username : String
  avatarUrl : String
  totalPages : Rat
  rank : Nat
deriving DecidableEq

/-- The Supabase query of `getLeaderboard`:
`select(user_id, pages_read, profiles!inner(username, avatar_url)).gte('log_date', startDate)`.
The month filter keeps rows dated on/after `monthStart`; the INNER join
keeps only rows whose user has a matching profile and attaches its fields. -/
def supabaseQueryRows (logs : List LogEntry) (profiles : List Profile)
    (monthStart : Int) : List LBRow :=
  (logs.filter (fun l => decide (monthStart ≤ l.log_date))).filterMap
    (fun l =>
      (profiles.find? (fun p => decide (p.userId = l.user_id))).map
        (fun p => ⟨l.user_id, l.pages_read, p.username, p.avatar⟩))

/-- One step of the `userTotals` aggregation: create the user's entry on
first sight (identity fields from that first row, running total 0) and add
the row's `pages_read` to the user's total. -/
def upsertRow (acc : List LBEntry) (r : LBRow) : List LBEntry :=
  if acc.any (fun e => decide (e.userId = r.user_id)) then
    acc.map (fun e =>
      if e.userId = r.user_id then { e with totalPages := e.totalPages + r.pages_read } else e)
  else acc ++ [⟨r.user_id, r.username, r.avatar, r.pages_read⟩]

/-- The `userTotals` aggregation of `getLeaderboard`: fold the fetched rows
into per-user totals, in first-occurrence order (JS object key order). -/
def aggregateRows (rows : List LBRow) : List LBEntry :=
  rows.foldl upsertRow []

/-- Comparator `(a, b) => b.totalPages - a.totalPages`: descending by total. -/
def lbDesc (a b : LBEntry) : Prop := b.totalPages ≤ a.totalPages

instance : DecidableRel lbDesc := fun a b =>
  inferInstanceAs (Decidable (b.totalPages ≤ a.totalPages))

instance : IsTotal LBEntry lbDesc :=
  ⟨fun a b => le_total b.totalPages a.totalPages⟩

instance : IsTrans LBEntry lbDesc :=
  ⟨fun _ _ _ h1 h2 => le_trans h2 h1⟩

/-- Total pages of user `u` in a list of leaderboard rows. -/
def rowsTotal (rows : List LBRow) (u : Nat) : Rat :=
  ((rows.filter (fun r => decide (r.user_id = u))).map (fun r => r.pages_read)).sum

/-- The running total recorded for user `u` in an accumulator of the
`userTotals` fold (0 when the user has no entry yet). -/
def baseTot (acc : List LBEntry) (u : Nat) : Rat :=
  match acc.find? (fun e => decide (e.userId = u)) with
  | some e => e.totalPages
  | none => 0

/-- The user ids of an accumulator of the `userTotals` fold. -/
def accUsers (acc : List LBEntry) : List Nat := acc.map (fun e => e.userId)

/-- The final `map((entry, index) => ({...entry, rank: index + 1}))`. -/
def assignRanks : Nat → List LBEntry → List RankedEntry
  | _, [] => []
  | i, e :: rest => ⟨e.userId, e.username, e.avatarUrl, e.totalPages, i + 1⟩ :: assignRanks (i + 1) rest

/-- `getLeaderboard(limit = 10)` from `js/reading-log.js` (Supabase variant):
fetch this month's rows with inner-joined profiles, aggregate per-user
totals, sort descending by total, truncate to `limit`, and rank by
position. -/
def getLeaderboard (logs : List LogEntry) (profiles : List Profile)
    (monthStart : Int) (limit : Nat) : List RankedEntry :=
  assignRanks 0
    ((List.insertionSort lbDesc (aggregateRows (supabaseQueryRows logs profiles monthStart))).take limit)

/-- A `userTotals` value of the Appwrite `getLeaderboard` (no profile
fields yet). -/
structure AwEntry where
  userId : Nat
  totalPages : Rat
deriving DecidableEq

/-- An Appwrite leaderboard entry after profile resolution. -/
structure AwNamed where
  userId : Nat
  totalPages : Rat
  username : String
  avatarUrl : Option String
deriving DecidableEq

/-- An Appwrite leaderboard entry after the rank `map`. -/
structure AwRanked where
  userId : Nat
  totalPages : Rat
  username : String
  avatarUrl : Option String
  rank : Nat
deriving DecidableEq

/-- Aggregation step of the Appwrite `getLeaderboard`. -/
def awUpsert (acc : List AwEntry) (l : LogEntry) : List AwEntry :=
  if acc.any (fun e => decide (e.userId = l.user_id)) then
    acc.map (fun e =>
      if e.userId = l.user_id then { e with totalPages := e.totalPages + l.pages_read } else e)
  else acc ++ [⟨l.user_id, l.pages_read⟩]

/-- Descending comparator for Appwrite leaderboard entries. -/
def awDesc (a b : AwEntry) : Prop := b.totalPages ≤ a.totalPages

instance : DecidableRel awDesc := fun a b =>
  inferInstanceAs (Decidable (b.totalPages ≤ a.totalPages))

/-- Profile resolution of the Appwrite `getLeaderboard`: a resolved profile
supplies `username`/`avatarUrl`; an unresolved one yields the placeholder
`'Unknown User'` and the entry is kept. -/
def awResolve (profiles : List Profile) (e : AwEntry) : AwNamed :=
  match profiles.find? (fun p => decide (p.userId = e.userId)) with
  | some p => ⟨e.userId, e.totalPages, p.username, some p.avatar⟩
  | none => ⟨e.userId, e.totalPages, "Unknown User", none⟩

/-- The rank `map` of the Appwrite `getLeaderboard`. -/
def awAssignRanks : Nat → List AwNamed → List AwRanked
  | _, [] => []
  | i, e :: rest => ⟨e.userId, e.totalPages, e.username, e.avatarUrl, i + 1⟩ :: awAssignRanks (i + 1) rest

/-- `getLeaderboard(limit = 10)` from the Appwrite variant (`part_002`):
fetch at most 100 rows dated on/after `monthStart`, aggregate per-user
totals, sort descending, truncate to `limit`, resolve each surviving
user's profile (placeholder when absent), and rank by position. -/
def appwriteGetLeaderboard (logs : List LogEntry) (profiles : List Profile)
    (monthStart : Int) (limit : Nat) : List AwRanked :=
  let fetched := (logs.filter (fun l => decide (monthStart ≤ l.log_date))).take 100
  let lb := (List.insertionSort awDesc (fetched.foldl awUpsert [])).take limit
  awAssignRanks 0 (lb.map (awResolve profiles))

/-! ## Theorems -/

/-- C4: for every date and current date (with arbitrary time-of-day
components, which are stripped), `isDateInRange(d, 3)` returns true iff
`today - 3 ≤ d ≤ today`; it accepts exactly the dates `today - 3 .. today`
and rejects `today - 4` and `today + 1`. -/
theorem C4_isDateInRange_window :
    (∀ t now : Instant,
        isDateInRange t 3 now = true ↔ now.day - 3 ≤ t.day ∧ t.day ≤ now.day) ∧
    (∀ (now : Instant) (k : Int), 0 ≤ k → k ≤ 3 →
        isDateInRange ⟨now.day - k, 0⟩ 3 now = true) ∧
    (∀ now : Instant,
        isDateInRange ⟨now.day - 4, 0⟩ 3 now = false ∧
        isDateInRange ⟨now.day + 1, 0⟩ 3 now = false) := by
  refine ⟨fun t now => ?_, fun now k hk0 hk3 => ?_, fun now => ⟨?_, ?_⟩⟩ <;>
    simp [isDateInRange, stripTime] <;> omega

/-- Witness for C4 at a concrete input: day 98 lies within 3 days of
day 100 (time-of-day 7 is ignored). -/
theorem C4_isDateInRange_window_witness :
    (0 : Int) ≤ 2 ∧ (2 : Int) ≤ 3 ∧
      isDateInRange ⟨(100 : Int) - 2, 0⟩ 3 ⟨100, 7⟩ = true :=
  ⟨by norm_num, by norm_num,
    C4_isDateInRange_window.2.1 ⟨100, 7⟩ 2 (by norm_num) (by norm_num)⟩

/-- C1: `calculateStats` returns `avgPages = 0` for the empty collection
(short-circuiting before any division), and for a non-empty collection
`avgPages` is the round-half-up of `totalPages / daysLogged`: it is the
unique integer `n` with `n ≤ q + 1/2` and `q < n + 1/2` for
`q = totalPages / daysLogged`. -/
theorem C1_calculateStats_avgPages :
    (∀ today : Int, (calculateStats [] today).avgPages = 0) ∧
    (∀ (logs : List LogEntry) (today : Int), logs ≠ [] →
      (calculateStats logs today).totalPages
          = logs.foldl (fun s l => s + l.pages_read) 0 ∧
      (calculateStats logs today).daysLogged = logs.length ∧
      ((calculateStats logs today).avgPages : Rat)
          ≤ (calculateStats logs today).totalPages
              / ((calculateStats logs today).daysLogged : Rat) + 1 / 2 ∧
      (calculateStats logs today).totalPages
          / ((calculateStats logs today).daysLogged : Rat)
          < ((calculateStats logs today).avgPages : Rat) + 1 / 2) := by
  constructor
  · intro today; rfl
  · intro logs today hne
    have hlen : ¬ logs.length = 0 := by simpa using hne
    refine ⟨?_, ?_, ?_, ?_⟩
    · simp [calculateStats, hne]
    · simp [calculateStats, hne]
    · simp only [calculateStats, if_neg hlen, mathRound]
      exact Int.floor_le _
    · simp only [calculateStats, if_neg hlen, mathRound]
      have h := Int.lt_floor_add_one
        ((logs.foldl (fun s l => s + l.pages_read) 0) / (logs.length : Rat) + 1 / 2)
      linarith

/-- Witness for C1 at a concrete input: two entries of 10 and 15 pages. -/
theorem C1_calculateStats_avgPages_witness :
    [mkLog 1 1 0 10, mkLog 2 1 1 15] ≠ [] ∧
      ((calculateStats [mkLog 1 1 0 10, mkLog 2 1 1 15] 2).totalPages
          = [mkLog 1 1 0 10, mkLog 2 1 1 15].foldl (fun s l => s + l.pages_read) 0 ∧
        (calculateStats [mkLog 1 1 0 10, mkLog 2 1 1 15] 2).daysLogged
          = [mkLog 1 1 0 10, mkLog 2 1 1 15].length ∧
        ((calculateStats [mkLog 1 1 0 10, mkLog 2 1 1 15] 2).avgPages : Rat)
          ≤ (calculateStats [mkLog 1 1 0 10, mkLog 2 1 1 15] 2).totalPages
              / ((calculateStats [mkLog 1 1 0 10, mkLog 2 1 1 15] 2).daysLogged : Rat) + 1 / 2 ∧
        (calculateStats [mkLog 1 1 0 10, mkLog 2 1 1 15] 2).totalPages
            / ((calculateStats [mkLog 1 1 0 10, mkLog 2 1 1 15] 2).daysLogged : Rat)
          < ((calculateStats [mkLog 1 1 0 10, mkLog 2 1 1 15] 2).avgPages : Rat) + 1 / 2) :=
  ⟨by simp, C1_calculateStats_avgPages.2 [mkLog 1 1 0 10, mkLog 2 1 1 15] 2 (by simp)⟩

/-- In a store with distinct ids, looking up a member entry by its id finds
exactly that entry. -/
theorem find_by_id {store : List LogEntry} {e : LogEntry}
    (hnd : (store.map (fun x => x.id)).Nodup) (he : e ∈ store) :
    store.find? (fun x => decide (x.id = e.id)) = some e := by
  induction store with
  | nil => cases he
  | cons a rest ih =>
    simp only [List.map_cons, List.nodup_cons] at hnd
    rcases List.mem_cons.1 he with rfl | hmem
    · simp
    · have hne : ¬ a.id = e.id := by
        intro h
        exact hnd.1 (h ▸ List.mem_map_of_mem (fun x => x.id) hmem)
      rw [List.find?_cons_of_neg _ (by simpa using hne)]
      exact ih hnd.2 hmem

/-- C9: for an existing entry and pages in [1, 1000], `updateReadingLog`
succeeds and changes only `pages_read` and the update timestamp — the
entry's `log_date` and owning user are unchanged, every other entry is
untouched — with no date-window re-validation (it succeeds even when the
entry's date lies outside `[today - 3, today]` for any `today`); pages
outside [1, 1000] are rejected. -/
theorem C9_updateReadingLog_frame :
    ∀ (store : List LogEntry) (p : Rat) (now today : Int) (e : LogEntry),
      (store.map (fun x => x.id)).Nodup → e ∈ store → 1 ≤ p → p ≤ 1000 →
      (updateReadingLog store e.id p now =
          Except.ok
            (store.map (fun x =>
                if x.id = e.id then { x with pages_read := p, updated_at := now } else x),
              { e with pages_read := p, updated_at := now }) ∧
        ({ e with pages_read := p, updated_at := now }).log_date = e.log_date ∧
        ({ e with pages_read := p, updated_at := now }).user_id = e.user_id ∧
        ({ e with pages_read := p, updated_at := now }).pages_read = p ∧
        (∀ x ∈ store, x.id ≠ e.id →
          x ∈ store.map (fun y =>
            if y.id = e.id then { y with pages_read := p, updated_at := now } else y)) ∧
        (isDateInRange ⟨e.log_date, 0⟩ 3 ⟨today, 0⟩ = false →
          ∃ v, updateReadingLog store e.id p now = Except.ok v)) ∧
      (∀ q : Rat, q < 1 ∨ q > 1000 →
        updateReadingLog store e.id q now = Except.error pagesMsg) := by
  intro store p now today e hnd he hp1 hp2
  have hpv : ¬ (p < 1 ∨ p > 1000) := by
    push_neg
    exact ⟨hp1, hp2⟩
  have hok : updateReadingLog store e.id p now =
      Except.ok
        (store.map (fun x =>
            if x.id = e.id then { x with pages_read := p, updated_at := now } else x),
          { e with pages_read := p, updated_at := now }) := by
    rw [updateReadingLog, if_neg hpv, find_by_id hnd he]
  refine ⟨⟨hok, rfl, rfl, rfl, ?_, fun _ => ⟨_, hok⟩⟩, ?_⟩
  · intro x hx hxid
    refine List.mem_map.2 ⟨x, hx, ?_⟩
    rw [if_neg hxid]
  · intro q hq
    rw [updateReadingLog, if_pos hq]

/-- Witness for C9 at a concrete input: an entry whose date (-100) is far
outside the creation window relative to today = 0 still has its pages
updated to 3. -/
theorem C9_updateReadingLog_frame_witness :
    ([mkLog 5 2 (-100) 10].map (fun x => x.id)).Nodup ∧
      mkLog 5 2 (-100) 10 ∈ [mkLog 5 2 (-100) 10] ∧
      (1 : Rat) ≤ 3 ∧ (3 : Rat) ≤ 1000 ∧
      (updateReadingLog [mkLog 5 2 (-100) 10] (mkLog 5 2 (-100) 10).id 3 1 =
          Except.ok
            ([mkLog 5 2 (-100) 10].map (fun x =>
                if x.id = (mkLog 5 2 (-100) 10).id then
                  { x with pages_read := 3, updated_at := 1 } else x),
              { mkLog 5 2 (-100) 10 with pages_read := 3, updated_at := 1 }) ∧
        ({ mkLog 5 2 (-100) 10 with pages_read := 3, updated_at := 1 }).log_date
            = (mkLog 5 2 (-100) 10).log_date ∧
        ({ mkLog 5 2 (-100) 10 with pages_read := 3, updated_at := 1 }).user_id
            = (mkLog 5 2 (-100) 10).user_id ∧
        ({ mkLog 5 2 (-100) 10 with pages_read := 3, updated_at := 1 }).pages_read = 3 ∧
        (∀ x ∈ [mkLog 5 2 (-100) 10], x.id ≠ (mkLog 5 2 (-100) 10).id →
          x ∈ [mkLog 5 2 (-100) 10].map (fun y =>
            if y.id = (mkLog 5 2 (-100) 10).id then
              { y with pages_read := 3, updated_at := 1 } else y)) ∧
        (isDateInRange ⟨(mkLog 5 2 (-100) 10).log_date, 0⟩ 3 ⟨0, 0⟩ = false →
          ∃ v, updateReadingLog [mkLog 5 2 (-100) 10] (mkLog 5 2 (-100) 10).id 3 1
            = Except.ok v)) ∧
      (∀ q : Rat, q < 1 ∨ q > 1000 →
        updateReadingLog [mkLog 5 2 (-100) 10] (mkLog 5 2 (-100) 10).id q 1
          = Except.error pagesMsg) :=
  ⟨by decide, by decide, by decide, by decide,
    C9_updateReadingLog_frame [mkLog 5 2 (-100) 10] 3 1 0 (mkLog 5 2 (-100) 10)
      (by decide) (by decide) (by decide) (by decide)⟩

/-- C10: `getUserLogs` with the dashboard's default limit 50 returns at
most 50 entries, ordered by `log_date` descending; every returned entry's
date is at least every dropped entry's date (so these are the most recent
ones); together with the dropped suffix it is a permutation of the user's
full log list; and the dashboard statistics of `refreshLogs` are computed
from exactly this truncated list. -/
theorem C10_getUserLogs_default_limit :
    ∀ (allLogs : List LogEntry) (uid : Nat) (today : Int),
      (getUserLogs allLogs uid 50).length ≤ 50 ∧
      List.Pairwise dateDesc (getUserLogs allLogs uid 50) ∧
      (∀ e ∈ getUserLogs allLogs uid 50,
        ∀ f ∈ (List.insertionSort dateDesc
            (allLogs.filter (fun l => decide (l.user_id = uid)))).drop 50,
          f.log_date ≤ e.log_date) ∧
      (getUserLogs allLogs uid 50 ++
          (List.insertionSort dateDesc
            (allLogs.filter (fun l => decide (l.user_id = uid)))).drop 50).Perm
        (allLogs.filter (fun l => decide (l.user_id = uid))) ∧
      refreshLogsStats allLogs uid today
        = calculateStats (getUserLogs allLogs uid 50) today := by
  intro allLogs uid today
  have hs : List.Sorted dateDesc
      (List.insertionSort dateDesc (allLogs.filter (fun l => decide (l.user_id = uid)))) :=
    List.sorted_insertionSort dateDesc _
  refine ⟨?_, ?_, ?_, ?_, rfl⟩
  · rw [getUserLogs, List.length_take]
    exact min_le_left _ _
  · exact List.Pairwise.sublist (List.take_sublist _ _) hs
  · have hsplit := hs
    rw [← List.take_append_drop 50
      (List.insertionSort dateDesc (allLogs.filter (fun l => decide (l.user_id = uid))))]
      at hsplit
    have h3 := (List.pairwise_append.1 hsplit).2.2
    intro e he f hf
    exact h3 e he f hf
  · rw [getUserLogs, List.take_append_drop]
    exact List.perm_insertionSort _ _

/-- Counterexample for C5: `addReadingLog` accepts the non-integer page
count 1001/2 = 500.5 (valid date, empty store) and stores it as-is, even
though 1001/2 is not an integer — the claim "rejects every non-integer
value" is false of the code, whose check is only `pagesRead < 1 ||
pagesRead > 1000`. -/
theorem C5_cex_nonInteger_accepted :
    addReadingLog [] 1 0 (1001 / 2) 0 7 InsertOutcome.ok
        = Except.ok ⟨7, 1, 0, 1001 / 2, 0⟩ ∧
    ∀ n : Int, (n : Rat) ≠ 1001 / 2 := by
  constructor
  · rw [addReadingLog, if_neg (by decide), if_neg (by push_neg; norm_num)]
    rfl
  · intro n h
    have h2 : (2 : Rat) * (n : Rat) = 1001 := by
      rw [h]; norm_num
    have h3 : ((2 * n : Int) : Rat) = ((1001 : Int) : Rat) := by push_cast; linarith
    have h4 : (2 * n : Int) = 1001 := Int.cast_injective h3
    omega

/-- C5 amended: `addReadingLog` rejects a page count with the validation
message exactly when `pagesRead < 1` or `pagesRead > 1000` (so 0 and 1001
are rejected and 1 and 1000 accepted), but non-integer values inside the
range pass the check. -/
theorem C5_pages_range_validation :
    (∀ (store : List LogEntry) (u : Nat) (d : Int) (p : Rat) (today : Int)
        (nid : Nat) (oc : InsertOutcome),
        isDateInRange ⟨d, 0⟩ 3 ⟨today, 0⟩ = true → (p < 1 ∨ p > 1000) →
        addReadingLog store u d p today nid oc = Except.error pagesMsg) ∧
    (∀ (u : Nat) (d : Int) (p : Rat) (today : Int) (nid : Nat),
        isDateInRange ⟨d, 0⟩ 3 ⟨today, 0⟩ = true → 1 ≤ p → p ≤ 1000 →
        addReadingLog [] u d p today nid InsertOutcome.ok
          = Except.ok ⟨nid, u, d, p, today⟩) := by
  constructor
  · intro store u d p today nid oc hdate hp
    rw [addReadingLog.eq_def, if_neg (by simp [hdate]), if_pos hp]
  · intro u d p today nid hdate hp1 hp2
    rw [addReadingLog, if_neg (by simp [hdate]),
      if_neg (by push_neg; exact ⟨hp1, hp2⟩)]
    rfl

/-- Witness for C5 at a concrete input: the boundary value 1 page is
accepted. -/
theorem C5_pages_range_validation_witness :
    isDateInRange ⟨(0 : Int), 0⟩ 3 ⟨(0 : Int), 0⟩ = true ∧
      (1 : Rat) ≤ 1 ∧ (1 : Rat) ≤ 1000 ∧
      addReadingLog [] 1 0 1 0 7 InsertOutcome.ok = Except.ok ⟨7, 1, 0, 1, 0⟩ :=
  ⟨by decide, by decide, by decide,
    C5_pages_range_validation.2 1 0 1 0 7 (by decide) (by decide) (by decide)⟩

/-- Counterexample for C6: the duplicate-date error surfaced by the
storage layer (error code 23505) carries a different user-facing message
from the client-side pre-check's, so the user can distinguish which layer
caught it — the claim that both layers produce the same message is false. -/
theorem C6_cex_distinct_messages :
    addReadingLog [mkLog 1 1 0 10] 1 0 20 0 2 InsertOutcome.ok
        = Except.error dupPreMsg ∧
    addReadingLog [] 1 0 20 0 2 InsertOutcome.uniqueViolation
        = Except.error dupDbMsg ∧
    dupPreMsg ≠ dupDbMsg := by
  refine ⟨?_, ?_, by decide⟩
  · rw [addReadingLog, if_neg (by decide), if_neg (by decide), if_pos (by decide)]
  · rw [addReadingLog, if_neg (by decide), if_neg (by decide), if_neg (by decide)]

/-- C6 amended: both layers surface a duplicate-date error — the pre-check
with `dupPreMsg`, the storage-layer uniqueness violation with `dupDbMsg` —
and `dupPreMsg` extends `dupDbMsg` by the suffix ". Please edit it
instead.", so the two messages share their core text but are NOT equal:
the layers are distinguishable. -/
theorem C6_duplicate_messages :
    (∀ (store : List LogEntry) (u : Nat) (d : Int) (p : Rat) (today : Int)
        (nid : Nat) (oc : InsertOutcome),
        isDateInRange ⟨d, 0⟩ 3 ⟨today, 0⟩ = true → 1 ≤ p → p ≤ 1000 →
        ((getLogByDate store u d).isSome = true →
            addReadingLog store u d p today nid oc = Except.error dupPreMsg) ∧
        (getLogByDate store u d = none →
            addReadingLog store u d p today nid InsertOutcome.uniqueViolation
              = Except.error dupDbMsg)) ∧
    dupPreMsg = dupDbMsg ++ ". Please edit it instead." ∧
    dupPreMsg ≠ dupDbMsg := by
  refine ⟨?_, by decide, by decide⟩
  intro store u d p today nid oc hdate hp1 hp2
  constructor
  · intro hdup
    rw [addReadingLog.eq_def, if_neg (by simp [hdate]),
      if_neg (by push_neg; exact ⟨hp1, hp2⟩), if_pos hdup]
  · intro hnone
    rw [addReadingLog, if_neg (by simp [hdate]),
      if_neg (by push_neg; exact ⟨hp1, hp2⟩), if_neg (by simp [hnone])]

/-- Witness for C6 at a concrete input: with an existing entry for
(user 1, day 0), the pre-check rejects a second insert with `dupPreMsg`. -/
theorem C6_duplicate_messages_witness :
    isDateInRange ⟨(0 : Int), 0⟩ 3 ⟨(0 : Int), 0⟩ = true ∧
      (1 : Rat) ≤ 20 ∧ (20 : Rat) ≤ 1000 ∧
      (getLogByDate [mkLog 1 1 0 10] 1 0).isSome = true ∧
      addReadingLog [mkLog 1 1 0 10] 1 0 20 0 2 InsertOutcome.ok
        = Except.error dupPreMsg :=
  ⟨by decide, by decide, by decide, by decide,
    ((C6_duplicate_messages.1 [mkLog 1 1 0 10] 1 0 20 0 2 InsertOutcome.ok
      (by decide) (by decide) (by decide)).1 (by decide))⟩

/-- The backward walk counts at most `fuel` days. -/
theorem currentStreakLoop_le (dates : List Int) :
    ∀ (fuel : Nat) (d : Int), currentStreakLoop dates d fuel ≤ fuel := by
  intro fuel
  induction fuel with
  | zero => intro d; simp [currentStreakLoop]
  | succ n ih =>
    intro d
    simp only [currentStreakLoop]
    split
    · exact Nat.succ_le_succ (ih (d - 1))
    · exact Nat.zero_le _

/-- Every day counted by the backward walk carries an entry. -/
theorem currentStreakLoop_mem (dates : List Int) :
    ∀ (fuel : Nat) (d : Int) (i : Nat), i < currentStreakLoop dates d fuel →
      d - (i : Int) ∈ dates := by
  intro fuel
  induction fuel with
  | zero => intro d i h; simp [currentStreakLoop] at h
  | succ n ih =>
    intro d i h
    simp only [currentStreakLoop] at h
    by_cases hd : d ∈ dates
    · rw [if_pos hd] at h
      cases i with
      | zero => simpa using hd
      | succ j =>
        have hj : j < currentStreakLoop dates (d - 1) n := by omega
        have hmem := ih (d - 1) j hj
        have heq : d - ((j + 1 : Nat) : Int) = d - 1 - (j : Int) := by push_cast; ring
        rw [heq]
        exact hmem
    · rw [if_neg hd] at h
      omega

/-- When the walk stops short of its fuel, it stopped at the `break`: the
next day back has no entry. -/
theorem currentStreakLoop_break (dates : List Int) :
    ∀ (fuel : Nat) (d : Int), currentStreakLoop dates d fuel < fuel →
      d - (currentStreakLoop dates d fuel : Int) ∉ dates := by
  intro fuel
  induction fuel with
  | zero => intro d h; omega
  | succ n ih =>
    intro d h
    simp only [currentStreakLoop] at h ⊢
    by_cases hd : d ∈ dates
    · rw [if_pos hd] at h ⊢
      have h2 : currentStreakLoop dates (d - 1) n < n := by omega
      have hb := ih (d - 1) h2
      intro hmem
      apply hb
      have heq : d - ((currentStreakLoop dates (d - 1) n + 1 : Nat) : Int)
          = d - 1 - (currentStreakLoop dates (d - 1) n : Int) := by push_cast; ring
      rw [heq] at hmem
      exact hmem
    · rw [if_neg hd] at h ⊢
      simpa using hd

/-- The counted days are distinct members of `dates`, so the walk's result
is bounded by the number of distinct dates (whatever the fuel). -/
theorem currentStreakLoop_bound (dates : List Int) (fuel : Nat) (d : Int) :
    currentStreakLoop dates d fuel ≤ dates.dedup.length := by
  have hnd : ((List.range (currentStreakLoop dates d fuel)).map
      (fun (i : Nat) => d - (i : Int))).Nodup := by
    refine List.Nodup.map ?_ (List.nodup_range _)
    intro i j hij
    simp only [] at hij
    omega
  have hsub : ((List.range (currentStreakLoop dates d fuel)).map
      (fun (i : Nat) => d - (i : Int))) ⊆ dates.dedup := by
    intro x hx
    rcases List.mem_map.1 hx with ⟨i, hi, rfl⟩
    exact List.mem_dedup.2 (currentStreakLoop_mem dates fuel d i (List.mem_range.1 hi))
  have hle := (List.subperm_of_subset hnd hsub).length_le
  simpa using hle

/-- `Nat.findGreatest` respects pointwise-equivalent predicates. -/
theorem findGreatest_congr {P Q : Nat → Prop} [DecidablePred P] [DecidablePred Q]
    (h : ∀ k, P k ↔ Q k) : ∀ n, Nat.findGreatest P n = Nat.findGreatest Q n := by
  intro n
  induction n with
  | zero => rfl
  | succ n ih =>
    rw [Nat.findGreatest_succ, Nat.findGreatest_succ]
    by_cases hq : Q (n + 1)
    · rw [if_pos ((h _).2 hq), if_pos hq]
    · rw [if_neg (fun hp => hq ((h _).1 hp)), if_neg hq, ih]

/-- The fueled backward walk computes exactly the spec's current streak:
the greatest run of consecutive logged days ending at the walk's start. -/
theorem currentStreakCalc_eq_spec (dates : List Int) (today : Int) :
    currentStreakCalc dates today = specCurrentStreak dates today := by
  have hb := currentStreakLoop_bound dates (dates.dedup.length + 1) (streakStart dates today)
  have hlt : currentStreakLoop dates (streakStart dates today) (dates.dedup.length + 1)
      < dates.dedup.length + 1 := by omega
  symm
  rw [specCurrentStreak, currentStreakCalc]
  apply Nat.findGreatest_eq_iff.2
  refine ⟨hb, ?_, ?_⟩
  · intro _ i hi
    exact currentStreakLoop_mem dates _ _ i hi
  · intro n hlt2 _ hP
    exact currentStreakLoop_break dates _ _ hlt (hP _ hlt2)

/-- The spec's current streak only depends on the set of dates: it is
invariant under permutation. -/
theorem specCurrentStreak_perm {d1 d2 : List Int} (h : d1.Perm d2) (today : Int) :
    specCurrentStreak d1 today = specCurrentStreak d2 today := by
  have hmem : ∀ x : Int, x ∈ d1 ↔ x ∈ d2 := fun x => h.mem_iff
  have hstart : streakStart d1 today = streakStart d2 today := by
    rw [streakStart, streakStart, if_congr (hmem today) rfl rfl]
  have hlen : d1.dedup.length = d2.dedup.length := h.dedup.length_eq
  rw [specCurrentStreak, specCurrentStreak, hlen]
  refine findGreatest_congr (fun k => ?_) _
  rw [hstart]
  exact ⟨fun H i hi => (hmem _).1 (H i hi), fun H i hi => (hmem _).2 (H i hi)⟩

/-- C2: the current streak returned by `calculateStreaks` equals the
spec's walk — the number of consecutive logged calendar days counted
backward from today, starting at yesterday instead when today has no entry
— and in particular logs on {today, today-1, today-2} give streak 3, logs
on {today-1, today-2} give streak 2, and a log on {today-2} only gives
streak 0 (instances at today = 0). -/
theorem C2_currentStreak_walk :
    (∀ (logs : List LogEntry) (today : Int),
        (calculateStreaks logs today).1 = specCurrentStreak (logDates logs) today) ∧
    (calculateStreaks [mkLog 1 1 0 10, mkLog 2 1 (-1) 10, mkLog 3 1 (-2) 10] 0).1 = 3 ∧
    (calculateStreaks [mkLog 1 1 (-1) 10, mkLog 2 1 (-2) 10] 0).1 = 2 ∧
    (calculateStreaks [mkLog 1 1 (-2) 10] 0).1 = 0 := by
  refine ⟨?_, by decide, by decide, by decide⟩
  intro logs today
  by_cases hlen : logs.length = 0
  · have hnil : logs = [] := List.length_eq_zero.1 hlen
    subst hnil
    simp [calculateStreaks, specCurrentStreak, logDates]
  · simp only [calculateStreaks, if_neg hlen]
    rw [currentStreakCalc_eq_spec]
    exact specCurrentStreak_perm
      (List.Perm.map (fun l => l.log_date) (List.perm_insertionSort dateAsc logs)) today

/-- Once a previous date is in hand, the code's longest-streak loop and the
spec's pair scan are the same recursion. -/
theorem longestLoop_eq_scanPairs :
    ∀ (rest : List Int) (p : Int) (best temp : Nat),
      longestLoop rest best temp (some p) = scanPairs rest p temp best := by
  intro rest
  induction rest with
  | nil => intro p best temp; rfl
  | cons c r ih =>
    intro p best temp
    simp only [longestLoop, scanPairs]
    split
    · exact ih c best (temp + 1)
    · exact ih c (max best temp) 1

/-- For distinct dates, sorting the log entries by date and projecting
equals sorting the distinct dates directly. -/
theorem sortedDates_eq (logs : List LogEntry) (hnd : (logDates logs).Nodup) :
    logDates (List.insertionSort dateAsc logs)
      = List.insertionSort (fun a b => a ≤ b) (logDates logs).dedup := by
  have hded : (logDates logs).dedup = logDates logs := List.dedup_eq_self.2 hnd
  rw [hded]
  have h1 : (logDates (List.insertionSort dateAsc logs)).Perm (logDates logs) := by
    simp only [logDates]
    exact (List.perm_insertionSort dateAsc logs).map (fun l => l.log_date)
  have hperm : (logDates (List.insertionSort dateAsc logs)).Perm
      (List.insertionSort (fun a b => a ≤ b) (logDates logs)) :=
    h1.trans (List.perm_insertionSort (fun a b => a ≤ b) (logDates logs)).symm
  have hs1 : List.Sorted (fun a b : Int => a ≤ b) (logDates (List.insertionSort dateAsc logs)) :=
    List.pairwise_map.2 (List.sorted_insertionSort dateAsc logs)
  have hs2 : List.Sorted (fun a b : Int => a ≤ b)
      (List.insertionSort (fun a b => a ≤ b) (logDates logs)) :=
    List.sorted_insertionSort _ _
  exact List.eq_of_perm_of_sorted hperm hs1 hs2

/-- C3: for a non-empty collection with distinct dates (the one-entry-per-
day invariant), the longest streak of `calculateStreaks` equals the spec's
pair scan over the ascending distinct dates; a single entry yields longest
streak 1; and logs on days {1, 2, 3, 7} yield longest streak 3 even when
the current streak is 0 (today = 50). -/
theorem C3_longestStreak_scan :
    (∀ (logs : List LogEntry) (today : Int), logs ≠ [] → (logDates logs).Nodup →
        (calculateStreaks logs today).2 = specLongestStreak (logDates logs)) ∧
    (∀ (e : LogEntry) (today : Int), (calculateStreaks [e] today).2 = 1) ∧
    (calculateStreaks
        [mkLog 1 1 1 10, mkLog 2 1 2 10, mkLog 3 1 3 10, mkLog 4 1 7 10] 50).2 = 3 := by
  refine ⟨?_, ?_, by decide⟩
  · intro logs today hne hnd
    have hlen : ¬ logs.length = 0 := by simpa using hne
    simp only [calculateStreaks, if_neg hlen]
    rw [sortedDates_eq logs hnd, specLongestStreak]
    cases hc : List.insertionSort (fun a b => a ≤ b) (logDates logs).dedup with
    | nil => simp [longestLoop]
    | cons d rest =>
      simp only [longestLoop]
      exact longestLoop_eq_scanPairs rest d 0 1
  · intro e today
    simp [calculateStreaks, List.insertionSort, List.orderedInsert, logDates, longestLoop]

/-- Witness for C3 at a concrete input: four entries on days {1, 2, 3, 7}
(distinct dates) at today = 50. -/
theorem C3_longestStreak_scan_witness :
    [mkLog 1 1 1 10, mkLog 2 1 2 10, mkLog 3 1 3 10, mkLog 4 1 7 10] ≠ [] ∧
      (logDates [mkLog 1 1 1 10, mkLog 2 1 2 10, mkLog 3 1 3 10, mkLog 4 1 7 10]).Nodup ∧
      (calculateStreaks
          [mkLog 1 1 1 10, mkLog 2 1 2 10, mkLog 3 1 3 10, mkLog 4 1 7 10] 50).2
        = specLongestStreak
            (logDates [mkLog 1 1 1 10, mkLog 2 1 2 10, mkLog 3 1 3 10, mkLog 4 1 7 10]) :=
  ⟨by decide, by decide,
    C3_longestStreak_scan.1
      [mkLog 1 1 1 10, mkLog 2 1 2 10, mkLog 3 1 3 10, mkLog 4 1 7 10] 50
      (by decide) (by decide)⟩

/-- Splitting a user's row total at the head row. -/
theorem rowsTotal_cons (r : LBRow) (rest : List LBRow) (u : Nat) :
    rowsTotal (r :: rest) u
      = (if r.user_id = u then r.pages_read else 0) + rowsTotal rest u := by
  rw [rowsTotal, rowsTotal, List.filter_cons]
  by_cases h : r.user_id = u <;> simp [h]

/-- In an accumulator with distinct users, looking up a member entry by its
user id finds exactly that entry. -/
theorem find_by_user {acc : List LBEntry} {e : LBEntry}
    (hnd : (accUsers acc).Nodup) (he : e ∈ acc) :
    acc.find? (fun x => decide (x.userId = e.userId)) = some e := by
  induction acc with
  | nil => cases he
  | cons a rest ih =>
    simp only [accUsers, List.map_cons, List.nodup_cons] at hnd
    rcases List.mem_cons.1 he with rfl | hmem
    · simp
    · have hne : ¬ a.userId = e.userId := by
        intro h
        exact hnd.1 (h ▸ List.mem_map_of_mem (fun x => x.userId) hmem)
      rw [List.find?_cons_of_neg _ (by simpa using hne)]
      exact ih hnd.2 hmem

/-- The users after an upsert step: unchanged when the row's user is
already present, extended by it otherwise. -/
theorem upsert_users (acc : List LBEntry) (r : LBRow) :
    accUsers (upsertRow acc r)
      = if r.user_id ∈ accUsers acc then accUsers acc
        else accUsers acc ++ [r.user_id] := by
  have hiff : acc.any (fun e => decide (e.userId = r.user_id)) = true
      ↔ r.user_id ∈ accUsers acc := by
    rw [List.any_eq_true]
    constructor
    · rintro ⟨x, hx, hxe⟩
      simp only [decide_eq_true_eq] at hxe
      exact hxe ▸ List.mem_map_of_mem (fun e => e.userId) hx
    · intro hmem
      rcases List.mem_map.1 hmem with ⟨x, hx, hxe⟩
      exact ⟨x, hx, by simpa using hxe⟩
  by_cases hany : acc.any (fun e => decide (e.userId = r.user_id)) = true
  · rw [upsertRow, if_pos hany, if_pos (hiff.1 hany)]
    rw [accUsers, List.map_map, accUsers]
    congr 1
    funext e
    by_cases he : e.userId = r.user_id <;> simp [he]
  · rw [upsertRow, if_neg hany, if_neg (fun hm => hany (hiff.2 hm))]
    simp [accUsers]

/-- An upsert step preserves distinctness of the accumulator's users. -/
theorem upsert_nodup {acc : List LBEntry} (r : LBRow)
    (h : (accUsers acc).Nodup) : (accUsers (upsertRow acc r)).Nodup := by
  rw [upsert_users]
  by_cases hm : r.user_id ∈ accUsers acc
  · rw [if_pos hm]; exact h
  · rw [if_neg hm]
    simp [List.nodup_append, h, hm]

/-- The running total after an upsert step: the row's pages are added to
its user's total and nobody else's. -/
theorem baseTot_upsert (acc : List LBEntry) (r : LBRow) (u : Nat) :
    baseTot (upsertRow acc r) u
      = baseTot acc u + (if u = r.user_id then r.pages_read else 0) := by
  by_cases hany : acc.any (fun e => decide (e.userId = r.user_id)) = true
  · rw [upsertRow, if_pos hany]
    have hcomp :
        ((fun x : LBEntry => decide (x.userId = u)) ∘
          (fun e : LBEntry =>
            if e.userId = r.user_id then
              { e with totalPages := e.totalPages + r.pages_read } else e))
          = fun e : LBEntry => decide (e.userId = u) := by
      funext e
      by_cases he : e.userId = r.user_id <;> simp [he]
    rw [baseTot, baseTot, List.find?_map, hcomp]
    cases hf : acc.find? (fun e => decide (e.userId = u)) with
    | none =>
      by_cases hu : u = r.user_id
      · exfalso
        rcases List.any_eq_true.1 hany with ⟨x, hx, hxe⟩
        have hxu : x.userId = u := by simpa [hu] using hxe
        have hno := List.find?_eq_none.1 hf x hx
        simp [hxu] at hno
      · simp [hu]
    | some y =>
      have hy : y.userId = u := by simpa using List.find?_some hf
      by_cases hu : u = r.user_id
      · simp only [Option.map_some']
        rw [if_pos (hy.trans hu)]
        simp [hu]
      · simp only [Option.map_some']
        rw [if_neg (fun hc => hu (hy ▸ hc)), if_neg hu]
        simp
  · have hany2 : acc.any (fun e => decide (e.userId = r.user_id)) = false := by
      simpa using hany
    have hnone : ∀ x ∈ acc, ¬ x.userId = r.user_id := by
      intro x hx
      have := List.any_eq_false.1 hany2 x hx
      simpa using this
    rw [upsertRow, if_neg hany, baseTot, baseTot, List.find?_append]
    by_cases hu : u = r.user_id
    · have hfn : acc.find? (fun e => decide (e.userId = u)) = none := by
        rw [List.find?_eq_none]
        intro x hx
        simp only [decide_eq_true_eq]
        rw [hu]
        exact hnone x hx
      rw [hfn]
      simp [hu]
    · have hfn2 : ([(⟨r.user_id, r.username, r.avatar, r.pages_read⟩ : LBEntry)]).find?
          (fun e => decide (e.userId = u)) = none := by
        simp only [List.find?_eq_none, List.mem_singleton]
        rintro x rfl
        simpa using fun hc => hu hc.symm
      rw [hfn2, Option.or_none]
      simp [if_neg hu]

/-- The whole `userTotals` fold preserves distinctness of users. -/
theorem foldl_upsert_nodup :
    ∀ (rows : List LBRow) (acc : List LBEntry),
      (accUsers acc).Nodup → (accUsers (rows.foldl upsertRow acc)).Nodup := by
  intro rows
  induction rows with
  | nil => intro acc h; exact h
  | cons r rest ih => intro acc h; exact ih _ (upsert_nodup r h)

/-- Invariant of the `userTotals` fold: every accumulated entry's total is
its starting total plus the pages of the processed rows owned by its user. -/
theorem foldl_upsert_total :
    ∀ (rows : List LBRow) (acc : List LBEntry), (accUsers acc).Nodup →
      ∀ e ∈ rows.foldl upsertRow acc,
        e.totalPages = baseTot acc e.userId + rowsTotal rows e.userId := by
  intro rows
  induction rows with
  | nil =>
    intro acc hnd e he
    rw [baseTot, find_by_user hnd he]
    simp [rowsTotal]
  | cons r rest ih =>
    intro acc hnd e he
    have h1 := ih (upsertRow acc r) (upsert_nodup r hnd) e he
    rw [baseTot_upsert] at h1
    rw [rowsTotal_cons, h1]
    by_cases hu : e.userId = r.user_id
    · rw [if_pos hu, if_pos hu.symm]
      ring
    · rw [if_neg hu, if_neg (fun h => hu h.symm)]
      ring

/-- Every entry of `userTotals` holds exactly its user's summed pages over
the fetched rows. -/
theorem aggregateRows_total (rows : List LBRow) :
    ∀ e ∈ aggregateRows rows, e.totalPages = rowsTotal rows e.userId := by
  intro e he
  have h := foldl_upsert_total rows [] (by simp [accUsers]) e he
  simpa [baseTot] using h

/-- Under the inner join with every log's user resolvable, a user's row
total over the month query equals the summed pages of that user's logs
dated on/after the month start. -/
theorem supabaseQueryRows_total (logs : List LogEntry) (profiles : List Profile)
    (monthStart : Int) (u : Nat)
    (hp : ∀ l ∈ logs, ∃ q ∈ profiles, q.userId = l.user_id) :
    rowsTotal (supabaseQueryRows logs profiles monthStart) u
      = ((logs.filter (fun l =>
          decide (l.user_id = u ∧ monthStart ≤ l.log_date))).map
            (fun l => l.pages_read)).sum := by
  induction logs with
  | nil => simp [supabaseQueryRows, rowsTotal]
  | cons l rest ih =>
    have hrest : ∀ x ∈ rest, ∃ q ∈ profiles, q.userId = x.user_id :=
      fun x hx => hp x (List.mem_cons_of_mem l hx)
    have ihr := ih hrest
    rcases hp l (List.mem_cons_self l rest) with ⟨q0, hq0, hq0u⟩
    have hsome : ∃ q, profiles.find? (fun q => decide (q.userId = l.user_id)) = some q := by
      have hs : (profiles.find? (fun q => decide (q.userId = l.user_id))).isSome = true := by
        rw [List.find?_isSome]
        exact ⟨q0, hq0, by simpa using hq0u⟩
      exact Option.isSome_iff_exists.1 hs
    rcases hsome with ⟨q, hq⟩
    rw [supabaseQueryRows] at ihr
    rw [supabaseQueryRows, List.filter_cons]
    by_cases hm : monthStart ≤ l.log_date
    · rw [if_pos (by simpa using hm), List.filterMap_cons]
      simp only [hq, Option.map_some']
      rw [rowsTotal_cons]
      by_cases hu : l.user_id = u
      · rw [if_pos hu, List.filter_cons, if_pos (by simp [hu, hm]), List.map_cons,
          List.sum_cons, ihr]
      · rw [if_neg hu, List.filter_cons, if_neg (by simp [hu]), ihr]
        simp
    · rw [if_neg (by simpa using hm), List.filter_cons, if_neg (by simp [hm])]
      exact ihr

/-- Ranking preserves the number of entries. -/
theorem assignRanks_length :
    ∀ (i : Nat) (l : List LBEntry), (assignRanks i l).length = l.length := by
  intro i l
  induction l generalizing i with
  | nil => rfl
  | cons e rest ih => simp [assignRanks, ih]

/-- The entry at position `j` of the ranked list carries rank `i + j + 1`. -/
theorem assignRanks_get :
    ∀ (l : List LBEntry) (i j : Nat) (h : j < (assignRanks i l).length),
      ((assignRanks i l).get ⟨j, h⟩).rank = i + j + 1 := by
  intro l
  induction l with
  | nil => intro i j h; simp [assignRanks] at h
  | cons e rest ih =>
    intro i j h
    cases j with
    | zero => rfl
    | succ k =>
      have hk : k < (assignRanks (i + 1) rest).length := by
        simpa [assignRanks] using h
      have hrec := ih (i + 1) k hk
      have hstep : (assignRanks i (e :: rest)).get ⟨k + 1, h⟩
          = (assignRanks (i + 1) rest).get ⟨k, hk⟩ := rfl
      rw [hstep, hrec]
      omega

/-- Every ranked entry restates a truncated-totals entry's identity and
total. -/
theorem assignRanks_mem :
    ∀ (i : Nat) (l : List LBEntry) (e : RankedEntry), e ∈ assignRanks i l →
      ∃ x ∈ l, e.userId = x.userId ∧ e.username = x.username ∧
        e.totalPages = x.totalPages := by
  intro i l
  induction l generalizing i with
  | nil => intro e he; simp [assignRanks] at he
  | cons a rest ih =>
    intro e he
    rcases List.mem_cons.1 (by simpa [assignRanks] using he) with rfl | hmem
    · exact ⟨a, List.mem_cons_self a rest, rfl, rfl, rfl⟩
    · rcases ih (i + 1) e hmem with ⟨x, hx, h1, h2, h3⟩
      exact ⟨x, List.mem_cons_of_mem a hx, h1, h2, h3⟩

/-- Ranking preserves the descending-totals ordering. -/
theorem assignRanks_pairwise :
    ∀ (l : List LBEntry) (i : Nat),
      List.Pairwise lbDesc l →
      List.Pairwise (fun a b : RankedEntry => b.totalPages ≤ a.totalPages)
        (assignRanks i l) := by
  intro l
  induction l with
  | nil => intro i _; simp [assignRanks]
  | cons a rest ih =>
    intro i hp
    rcases List.pairwise_cons.1 hp with ⟨hhead, htail⟩
    refine List.pairwise_cons.2 ⟨?_, ih (i + 1) htail⟩
    intro b hb
    rcases assignRanks_mem (i + 1) rest b hb with ⟨x, hx, _, _, h3⟩
    rw [h3]
    exact hhead x hx

/-- C7: with every log's user resolvable (profiles present, as the inner
join presumes), each returned leaderboard entry's total is the sum of that
user's `pages_read` over entries dated on/after the month start (pre-month
pages excluded), the list is sorted descending by total, truncated to at
most `limit`, and ranks are the 1-based positions; for users A = 30,
B = 50, C = 50 pages this month (plus a pre-month 40-page entry of B) and
limit 2, the result is the two 50-page users with ranks 1 and 2. -/
theorem C7_getLeaderboard_aggregation :
    (∀ (logs : List LogEntry) (profiles : List Profile) (monthStart : Int)
        (limit : Nat),
      (∀ l ∈ logs, ∃ q ∈ profiles, q.userId = l.user_id) →
      (∀ e ∈ getLeaderboard logs profiles monthStart limit,
          e.totalPages = ((logs.filter (fun l =>
              decide (l.user_id = e.userId ∧ monthStart ≤ l.log_date))).map
            (fun l => l.pages_read)).sum) ∧
      List.Pairwise (fun a b : RankedEntry => b.totalPages ≤ a.totalPages)
        (getLeaderboard logs profiles monthStart limit) ∧
      (getLeaderboard logs profiles monthStart limit).length ≤ limit ∧
      (∀ (j : Nat) (h : j < (getLeaderboard logs profiles monthStart limit).length),
          ((getLeaderboard logs profiles monthStart limit).get ⟨j, h⟩).rank = j + 1)) ∧
    getLeaderboard
        [mkLog 1 1 5 30, mkLog 2 2 6 50, mkLog 3 3 7 50, mkLog 4 2 (-3) 40]
        [⟨1, "userA", "a"⟩, ⟨2, "userB", "b"⟩, ⟨3, "userC", "c"⟩] 0 2
      = [⟨2, "userB", "b", 50, 1⟩, ⟨3, "userC", "c", 50, 2⟩] := by
  constructor
  · intro logs profiles monthStart limit hp
    have hsorted : List.Pairwise lbDesc
        (List.insertionSort lbDesc
          (aggregateRows (supabaseQueryRows logs profiles monthStart))) :=
      List.sorted_insertionSort lbDesc _
    refine ⟨?_, ?_, ?_, ?_⟩
    · intro e he
      rw [getLeaderboard] at he
      rcases assignRanks_mem 0 _ e he with ⟨x, hx, hid, _, htot⟩
      have hx2 : x ∈ List.insertionSort lbDesc
          (aggregateRows (supabaseQueryRows logs profiles monthStart)) :=
        (List.take_sublist _ _).subset hx
      have hx3 : x ∈ aggregateRows (supabaseQueryRows logs profiles monthStart) :=
        (List.perm_insertionSort lbDesc _).subset hx2
      rw [htot, hid, aggregateRows_total _ x hx3]
      exact supabaseQueryRows_total logs profiles monthStart x.userId hp
    · rw [getLeaderboard]
      exact assignRanks_pairwise _ 0
        (List.Pairwise.sublist (List.take_sublist _ _) hsorted)
    · rw [getLeaderboard, assignRanks_length, List.length_take]
      exact min_le_left _ _
    · intro j h
      have hh : j < (assignRanks 0
          ((List.insertionSort lbDesc
            (aggregateRows (supabaseQueryRows logs profiles monthStart))).take
              limit)).length := h
      have := assignRanks_get _ 0 j hh
      simpa using this
  · decide

/-- Witness for C7 at the concrete A/B/C example input (all three users
have profiles). -/
theorem C7_getLeaderboard_aggregation_witness :
    (∀ l ∈ [mkLog 1 1 5 30, mkLog 2 2 6 50, mkLog 3 3 7 50, mkLog 4 2 (-3) 40],
        ∃ q ∈ [(⟨1, "userA", "a"⟩ : Profile), ⟨2, "userB", "b"⟩, ⟨3, "userC", "c"⟩],
          q.userId = l.user_id) ∧
    ((∀ e ∈ getLeaderboard
          [mkLog 1 1 5 30, mkLog 2 2 6 50, mkLog 3 3 7 50, mkLog 4 2 (-3) 40]
          [⟨1, "userA", "a"⟩, ⟨2, "userB", "b"⟩, ⟨3, "userC", "c"⟩] 0 2,
        e.totalPages =
          (([mkLog 1 1 5 30, mkLog 2 2 6 50, mkLog 3 3 7 50,
              mkLog 4 2 (-3) 40].filter (fun l =>
            decide (l.user_id = e.userId ∧ (0 : Int) ≤ l.log_date))).map
              (fun l => l.pages_read)).sum) ∧
      List.Pairwise (fun a b : RankedEntry => b.totalPages ≤ a.totalPages)
        (getLeaderboard
          [mkLog 1 1 5 30, mkLog 2 2 6 50, mkLog 3 3 7 50, mkLog 4 2 (-3) 40]
          [⟨1, "userA", "a"⟩, ⟨2, "userB", "b"⟩, ⟨3, "userC", "c"⟩] 0 2) ∧
      (getLeaderboard
          [mkLog 1 1 5 30, mkLog 2 2 6 50, mkLog 3 3 7 50, mkLog 4 2 (-3) 40]
          [⟨1, "userA", "a"⟩, ⟨2, "userB", "b"⟩, ⟨3, "userC", "c"⟩] 0 2).length ≤ 2 ∧
      (∀ (j : Nat) (h : j < (getLeaderboard
            [mkLog 1 1 5 30, mkLog 2 2 6 50, mkLog 3 3 7 50, mkLog 4 2 (-3) 40]
            [⟨1, "userA", "a"⟩, ⟨2, "userB", "b"⟩, ⟨3, "userC", "c"⟩] 0 2).length),
          ((getLeaderboard
            [mkLog 1 1 5 30, mkLog 2 2 6 50, mkLog 3 3 7 50, mkLog 4 2 (-3) 40]
            [⟨1, "userA", "a"⟩, ⟨2, "userB", "b"⟩, ⟨3, "userC", "c"⟩] 0 2).get
              ⟨j, h⟩).rank = j + 1)) :=
  ⟨by decide,
    C7_getLeaderboard_aggregation.1
      [mkLog 1 1 5 30, mkLog 2 2 6 50, mkLog 3 3 7 50, mkLog 4 2 (-3) 40]
      [⟨1, "userA", "a"⟩, ⟨2, "userB", "b"⟩, ⟨3, "userC", "c"⟩] 0 2 (by decide)⟩

/-- Profile resolution never changes the entry's user id. -/
theorem awResolve_userId (profiles : List Profile) (e : AwEntry) :
    (awResolve profiles e).userId = e.userId := by
  rw [awResolve]
  cases profiles.find? (fun p => decide (p.userId = e.userId)) <;> rfl

/-- The Appwrite rank map keeps the user ids, in order. -/
theorem awAssignRanks_map_userId :
    ∀ (i : Nat) (l : List AwNamed),
      (awAssignRanks i l).map (fun e => e.userId) = l.map (fun e => e.userId) := by
  intro i l
  induction l generalizing i with
  | nil => rfl
  | cons e rest ih => simp [awAssignRanks, ih]

/-- Every Appwrite ranked entry restates a resolved entry's identity and
display name. -/
theorem awAssignRanks_mem :
    ∀ (i : Nat) (l : List AwNamed) (e : AwRanked), e ∈ awAssignRanks i l →
      ∃ x ∈ l, e.userId = x.userId ∧ e.username = x.username := by
  intro i l
  induction l generalizing i with
  | nil => intro e he; simp [awAssignRanks] at he
  | cons a rest ih =>
    intro e he
    rcases List.mem_cons.1 (by simpa [awAssignRanks] using he) with rfl | hmem
    · exact ⟨a, List.mem_cons_self a rest, rfl, rfl⟩
    · rcases ih (i + 1) e hmem with ⟨x, hx, h1, h2⟩
      exact ⟨x, List.mem_cons_of_mem a hx, h1, h2⟩

/-- Counterexample for C8: in the Supabase variant, `profiles!inner` is an
INNER join, so the log rows of a user with no profile are dropped by the
query itself — user 7 has a 10-page entry inside the month window, yet
the leaderboard is empty instead of listing the user with a placeholder
name. -/
theorem C8_cex_innerJoin_drops_user :
    getLeaderboard [mkLog 1 7 0 10] [] 0 10 = [] ∧
    [mkLog 1 7 0 10].filter (fun l => decide ((0 : Int) ≤ l.log_date)) ≠ [] := by
  exact ⟨by decide, by decide⟩

/-- C8 amended: the Appwrite variant keeps every truncated-totals user in
the returned leaderboard — profile resolution never drops an entry — and
an entry whose user's profile cannot be resolved carries the placeholder
display name "Unknown User"; the Supabase variant instead excludes such
users' rows via its inner join (see the counterexample). -/
theorem C8_appwrite_placeholder :
    ∀ (logs : List LogEntry) (profiles : List Profile) (monthStart : Int)
        (limit : Nat),
      ((appwriteGetLeaderboard logs profiles monthStart limit).map
          (fun e => e.userId)
        = ((List.insertionSort awDesc
            (((logs.filter (fun l => decide (monthStart ≤ l.log_date))).take 100).foldl
              awUpsert [])).take limit).map (fun e => e.userId)) ∧
      (∀ e ∈ appwriteGetLeaderboard logs profiles monthStart limit,
          profiles.find? (fun q => decide (q.userId = e.userId)) = none →
          e.username = "Unknown User") := by
  intro logs profiles monthStart limit
  constructor
  · rw [appwriteGetLeaderboard, awAssignRanks_map_userId, List.map_map]
    congr 1
    funext x
    exact awResolve_userId profiles x
  · intro e he hnone
    rw [appwriteGetLeaderboard] at he
    rcases awAssignRanks_mem 0 _ e he with ⟨x, hx, hid, hname⟩
    rcases List.mem_map.1 hx with ⟨y, _, rfl⟩
    rw [hname, awResolve]
    rw [awResolve_userId] at hid
    rw [hid] at hnone
    rw [hnone]

/-- Witness for C8 at a concrete input: user 7 has a 10-page month entry
and no profile; the Appwrite leaderboard still lists the user, with the
placeholder name. -/
theorem C8_appwrite_placeholder_witness :
    (⟨7, 10, "Unknown User", none, 1⟩ : AwRanked) ∈
        appwriteGetLeaderboard [mkLog 1 7 0 10] [] 0 10 ∧
      List.find? (fun q => decide (q.userId = (⟨7, 10, "Unknown User", none, 1⟩ : AwRanked).userId))
        ([] : List Profile) = none ∧
      (⟨7, 10, "Unknown User", none, 1⟩ : AwRanked).username = "Unknown User" :=
  ⟨by decide, by decide,
    (C8_appwrite_placeholder [mkLog 1 7 0 10] [] 0 10).2
      ⟨7, 10, "Unknown User", none, 1⟩ (by decide) (by decide)⟩
